import Mathlib

/-!
Verification development for the order-matching core of the repository:
text normalizers (`matcher.py`), the greedy assignment engine
(`match_rows_to_pages`), PDF page reordering (`reorder_pdf`), the recency
resolver (`order_searcher.py`) and the folder scanner (`search_print.py`).

Python strings are embedded as lists of Unicode code points (`List Nat`);
this keeps every character-level operation executable and decidable.
-/

/-- A Python string, as its sequence of Unicode code points. -/
abbrev PyStr := List Nat

/-- Code points removed by `remove_special_chars`'s first substitution:
the zero-width range U+200B–U+200F and the BOM U+FEFF. -/
def isZeroWidth (n : Nat) : Bool := (0x200b ≤ n && n ≤ 0x200f) || n == 0xfeff

/-- Code points replaced by a plain space by `remove_special_chars`'s second
substitution: U+3000 (ideographic space) and U+00A0 (no-break space). -/
def isWideSpace (n : Nat) : Bool := n == 0x3000 || n == 0xa0

/-- `remove_special_chars(text)` from `matcher.py`: drop zero-width
characters, then turn ideographic/no-break spaces into plain spaces. -/
def remove_special_chars (s : PyStr) : PyStr :=
  (s.filter (fun n => !isZeroWidth n)).map (fun n => if isWideSpace n then 32 else n)

/-- The code points Python's `str.strip()` treats as whitespace. -/
def isPySpace (n : Nat) : Bool :=
  (9 ≤ n && n ≤ 13) || (28 ≤ n && n ≤ 32) || n == 0x85 || n == 0xa0 ||
  n == 0x1680 || (0x2000 ≤ n && n ≤ 0x200a) || n == 0x2028 || n == 0x2029 ||
  n == 0x202f || n == 0x205f || n == 0x3000

/-- Python `str.strip()`: remove leading and trailing whitespace. -/
def pyStrip (s : PyStr) : PyStr :=
  ((s.dropWhile isPySpace).reverse.dropWhile isPySpace).reverse

/-- ASCII digit `0`–`9` (code points 48–57), the class kept by
`re.sub(r'[^0-9]', '', text)`. -/
def isDigitN (n : Nat) : Bool := 48 ≤ n && n ≤ 57

/-- ASCII lowercase letter `a`–`z`. -/
def isLowerN (n : Nat) : Bool := 97 ≤ n && n ≤ 122

/-- ASCII uppercase letter `A`–`Z`. -/
def isUpperN (n : Nat) : Bool := 65 ≤ n && n ≤ 90

/-- The class kept by `re.sub(r'[^a-zA-Z0-9]', '', text)`. -/
def isAlnumN (n : Nat) : Bool := isDigitN n || isLowerN n || isUpperN n

/-- Python `str.upper()` on an ASCII code point (the only case reached in
`normalize_order_number`, whose input to `.upper()` is already ASCII). -/
def upperN (n : Nat) : Nat := if isLowerN n then n - 32 else n

/-- `p.isPrefixOf l` for code-point lists: Python `str.startswith`. -/
def listStartsWith : PyStr → PyStr → Bool
  | [], _ => true
  | _ :: _, [] => false
  | p :: ps, x :: xs => p == x && listStartsWith ps xs

/-- The digit-extraction step of `normalize_phone`:
`re.sub(r'[^0-9]', '', remove_special_chars(str(text).strip()))`. -/
def digitsOf (s : PyStr) : PyStr :=
  (remove_special_chars (pyStrip s)).filter isDigitN

/-- `normalize_phone(text)` from `matcher.py`: extract the digits, then
apply the first matching of its five prefix/length rules, else return
the empty string.  (`"010" = [48,49,48]`, `"10" = [49,48]`.) -/
def normalize_phone (s : PyStr) : PyStr :=
  let numbers := digitsOf s
  if listStartsWith [48, 49, 48] numbers && (numbers.length == 10 || numbers.length == 11) then
    numbers
  else if listStartsWith [49, 48] numbers && numbers.length == 10 then
    48 :: numbers
  else if listStartsWith [49, 48] numbers && numbers.length == 9 then
    48 :: numbers
  else if numbers.length == 8 then
    [48, 49, 48] ++ numbers
  else if numbers.length == 7 then
    [48, 49, 48] ++ numbers
  else
    []

/-- `normalize_order_number(text)` from `matcher.py`: strip, remove special
characters, keep only ASCII letters and digits, uppercase. -/
def normalize_order_number (s : PyStr) : PyStr :=
  ((remove_special_chars (pyStrip s)).filter isAlnumN).map upperN

/-- The `PageInfo` dataclass of `matcher.py`.  The index is an `Int`, as in
Python, so it can be compared with the `-1` sentinel used for "no page". -/
structure PageInfo where
  index : Int
  raw_text : PyStr
  norm_name_candidates : List PyStr
  norm_phone_list : List PyStr
  norm_addr_candidates : List PyStr
  norm_order_candidates : List PyStr
deriving DecidableEq, Repr

/-- One entry of the `match_details` dict built by `match_rows_to_pages`. -/
structure MatchDetail where
  page_idx : Int
  score : ℚ
  reason : String
deriving DecidableEq, Repr

/-- Python `max(iterable, default=d)`: the maximum of the list when it is
non-empty, the default otherwise. -/
def pyMax : List ℚ → ℚ → ℚ
  | [], d => d
  | x :: xs, _ => xs.foldl max x

/-- `calc_match_score` from `matcher.py`.  Scores are rationals (the code
mixes the int `100` with the float similarity ratio).  The external
`rapidfuzz.fuzz.ratio` function and the f-string float formatting are
passed in as parameters `ratio` and `fmt`; the first three record fields
are accepted and ignored exactly as in the source. -/
def calc_match_score (excel_name excel_phone excel_addr excel_order : PyStr)
    (page_info : PageInfo) (use_fuzzy : Bool) (threshold : ℚ)
    (ratio : PyStr → PyStr → ℚ) (fmt : ℚ → String) : ℚ × String :=
  if excel_order = [] ∨ page_info.norm_order_candidates = [] then
    (0, "no_order_data")
  else if excel_order ∈ page_info.norm_order_candidates then
    (100, "order_exact")
  else if use_fuzzy = false then
    (0, "no_match")
  else
    let best_order_sim :=
      pyMax (page_info.norm_order_candidates.map (fun o => ratio excel_order o)) 0
    if threshold ≤ best_order_sim then
      (best_order_sim, "order_fuzzy(" ++ fmt best_order_sim ++ "%)")
    else
      (0, "no_match")

/-- The inner page loop of `match_rows_to_pages`: scan the pages in order,
skipping pages whose index is already in `used`, keeping the best
`(best_page, best_score, best_reason)` triple, and breaking out as soon as
a freshly found score is `100`. -/
def bestPageLoop (excel_order : PyStr) (use_fuzzy : Bool) (threshold : ℚ)
    (ratio : PyStr → PyStr → ℚ) (fmt : ℚ → String) (used : List Int) :
    List PageInfo → Int → ℚ → String → Int × ℚ × String
  | [], bp, bs, br => (bp, bs, br)
  | p :: rest, bp, bs, br =>
    if p.index ∈ used then
      bestPageLoop excel_order use_fuzzy threshold ratio fmt used rest bp bs br
    else
      let sr := calc_match_score [] [] [] excel_order p use_fuzzy threshold ratio fmt
      if bs < sr.1 then
        if sr.1 = 100 then (p.index, sr.1, sr.2)
        else bestPageLoop excel_order use_fuzzy threshold ratio fmt used rest p.index sr.1 sr.2
      else
        bestPageLoop excel_order use_fuzzy threshold ratio fmt used rest bp bs br

/-- The outer record loop of `match_rows_to_pages`: `i` is the current row
index, `a` the assignments so far (in insertion order), `used` the set of
consumed page indices, `det` the match details so far. -/
def matchLoop (pages : List PageInfo) (use_fuzzy : Bool) (threshold : ℚ)
    (ratio : PyStr → PyStr → ℚ) (fmt : ℚ → String) :
    List PyStr → Nat → List (Nat × Int) → List Int → List (Nat × MatchDetail) →
    List (Nat × Int) × List Int × List (Nat × MatchDetail)
  | [], _, a, used, det => (a, used, det)
  | r :: rest, i, a, used, det =>
    let excel_order := normalize_order_number r
    if excel_order = [] then
      matchLoop pages use_fuzzy threshold ratio fmt rest (i + 1) a used
        (det ++ [(i, ⟨-1, 0, "empty_order_number"⟩)])
    else
      let b := bestPageLoop excel_order use_fuzzy threshold ratio fmt used pages (-1) 0 "no_match"
      if 0 < b.2.1 then
        matchLoop pages use_fuzzy threshold ratio fmt rest (i + 1)
          (a ++ [(i, b.1)]) (used ++ [b.1]) (det ++ [(i, ⟨b.1, b.2.1, b.2.2⟩)])
      else
        matchLoop pages use_fuzzy threshold ratio fmt rest (i + 1) a used
          (det ++ [(i, ⟨-1, 0, "no_match"⟩)])

/-- `match_rows_to_pages` from `matcher.py`.  Records are the raw values of
the identifier column, in dataframe order (row indices are positions).
Returns `(assignments, leftover_pages, match_details)`; the leftover pages
are `sorted(all_pages - used_pages)`. -/
def match_rows_to_pages (records : List PyStr) (pages : List PageInfo)
    (use_fuzzy : Bool) (threshold : ℚ)
    (ratio : PyStr → PyStr → ℚ) (fmt : ℚ → String) :
    List (Nat × Int) × List Int × List (Nat × MatchDetail) :=
  let r := matchLoop pages use_fuzzy threshold ratio fmt records 0 [] [] []
  let all_pages := (pages.map (fun p => p.index)).dedup
  let leftover_pages :=
    List.insertionSort (fun x y => x ≤ y) (all_pages.filter (fun i => i ∉ r.2.1))
  (r.1, leftover_pages, r.2.2)

/-- The `OrderMatch` dataclass of `order_searcher.py`.  Dates and the file
modification time are carried as their epoch-second values (`int(dt.timestamp())`
is the only use the scoring code makes of a `datetime`). -/
structure OrderMatch where
  order_number : String
  file_path : String
  page_numbers : List Nat
  doc_date : Option Int
  filename_date : Option Int
  modified_time : Int
  priority_score : Int
deriving DecidableEq, Repr

/-- `OrderSearcher._calculate_priority_score`: `score = 0`; add
`doc_date × 10^6` when a document date exists, else `filename_date × 10^3`
when a filename date exists; then always add the modification time. -/
def calculate_priority_score (doc_date filename_date : Option Int)
    (modified_time : Int) : Int :=
  (match doc_date with
   | some d => d * 1000000
   | none =>
     match filename_date with
     | some f => f * 1000
     | none => 0) + modified_time

/-- The decided-by computation that `OrderSearcher._select_latest_file`
performs (identically) in both its single-match and multi-match branches. -/
def decidedBasis (m : OrderMatch) : String :=
  match m.doc_date with
  | some _ => "doc_date"
  | none =>
    match m.filename_date with
    | some _ => "filename_date"
    | none => "modified_time"

/-- `OrderSearcher._select_latest_file`: empty input raises (`none` here);
a singleton is returned directly; otherwise the matches are sorted by
`priority_score` descending (Python's stable sort) and the head wins. -/
def select_latest_file : List OrderMatch → Option (OrderMatch × String)
  | [] => none
  | [m] => some (m, decidedBasis m)
  | m1 :: m2 :: rest =>
    match List.insertionSort (fun a b : OrderMatch => b.priority_score ≤ a.priority_score)
        (m1 :: m2 :: rest) with
    | [] => none
    | best :: _ => some (best, decidedBasis best)

/-- One PDF file as the folder scanner sees it: its path, its size (0 when
`os.path.getsize` fails), the outcome of `search_order_in_pdf` on it
(`none` when the order number is not found or the file is unreadable),
and its modification time.  The per-file PDF text search itself is I/O
through `pdfplumber`/`fitz` and is modelled by the `found` field. -/
structure ScanFile where
  path : String
  size : Nat
  found : Option (List Nat)
  mtime : Int
deriving DecidableEq, Repr

/-- A `(pdf_path, page_numbers, modified_time)` result triple. -/
abbrev ScanResult := String × List Nat × Int

/-- The final `results.sort(key=lambda x: x[2], reverse=True)` of both
folder-search variants: stable sort by modification time, descending. -/
def sortDescByMtime (rs : List ScanResult) : List ScanResult :=
  List.insertionSort (fun a b : ScanResult => b.2.2 ≤ a.2.2) rs

/-- The sequential per-file loop of `search_order_in_folder`: poll the stop
flag before each file (breaking out when it fires), collect a result
triple for each file whose search found pages. -/
def scanLoopSeq (stop : Nat → Bool) : List ScanFile → Nat → List ScanResult → List ScanResult
  | [], _, acc => acc
  | f :: rest, idx, acc =>
    if stop idx then acc
    else
      match f.found with
      | some pages => scanLoopSeq stop rest (idx + 1) (acc ++ [(f.path, pages, f.mtime)])
      | none => scanLoopSeq stop rest (idx + 1) acc

/-- The result-collection loop of `search_order_in_folder_multiprocess`:
`arrivals` is the stream of per-file outcomes in pool completion order
(`imap_unordered` gives no ordering guarantee, so it is arbitrary here);
the stop flag is polled once per arrival and breaks out of the loop. -/
def scanLoopMp (stop : Nat → Bool) : List (Option ScanResult) → Nat → List ScanResult → List ScanResult
  | [], _, acc => acc
  | r :: rest, k, acc =>
    if stop k then acc
    else
      match r with
      | some res => scanLoopMp stop rest (k + 1) (acc ++ [res])
      | none => scanLoopMp stop rest (k + 1) acc

/-- `search_order_in_folder_multiprocess` from `search_print.py`.
`stopListing` models the stop flag firing during the `os.walk` file
enumeration (the function then returns the — empty — results list
immediately); an empty folder also returns early.  Otherwise the collected
results are sorted by modification time descending. -/
def search_order_in_folder_multiprocess (stopListing : Bool)
    (arrivals : List (Option ScanResult)) (stop : Nat → Bool) : List ScanResult :=
  if stopListing then []
  else if arrivals = [] then []
  else sortDescByMtime (scanLoopMp stop arrivals 0 [])

/-- The single-process tail of `search_order_in_folder`: list the files
(returning the empty results list if the stop flag fires during the
listing), sort them by size ascending, run the sequential scan loop, and
sort the collected results by modification time descending. -/
def search_order_in_folder_seq (stopListing : Bool) (files : List ScanFile)
    (stop : Nat → Bool) : List ScanResult :=
  if stopListing then []
  else
    sortDescByMtime
      (scanLoopSeq stop
        (List.insertionSort (fun a b : ScanFile => a.size ≤ b.size) files) 1 [])

/-- `search_order_in_folder` from `search_print.py`: when multiprocessing
is requested and at least two PDFs are present, delegate to the
multiprocess variant, otherwise run the sequential scan. -/
def search_order_in_folder (use_multiprocess : Bool) (files : List ScanFile)
    (stopListing : Bool) (arrivals : List (Option ScanResult))
    (stop : Nat → Bool) : List ScanResult :=
  if use_multiprocess ∧ 2 ≤ files.length then
    search_order_in_folder_multiprocess stopListing arrivals stop
  else
    search_order_in_folder_seq stopListing files stop

/-- `reorder_pdf` from `matcher.py`, on the page list of the document:
emit the source pages at the given indices, in the given order; an
out-of-range index raises, modelled by `none`. -/
def reorder_pdf {α : Type} (doc : List α) : List Nat → Option (List α)
  | [] => some []
  | i :: rest =>
    match doc.get? i, reorder_pdf doc rest with
    | some p, some out => some (p :: out)
    | _, _ => none

/-! ## Sorting instances for the relations used by the code's sorts -/

instance : IsTotal ScanResult (fun a b => b.2.2 ≤ a.2.2) :=
  ⟨fun a b => le_total b.2.2 a.2.2⟩

instance : IsTrans ScanResult (fun a b => b.2.2 ≤ a.2.2) :=
  ⟨fun _ _ _ hab hbc => le_trans hbc hab⟩

instance : IsTotal OrderMatch (fun a b => b.priority_score ≤ a.priority_score) :=
  ⟨fun a b => le_total b.priority_score a.priority_score⟩

instance : IsTrans OrderMatch (fun a b => b.priority_score ≤ a.priority_score) :=
  ⟨fun _ _ _ hab hbc => le_trans hbc hab⟩

/-! ## Claim C2: priority score -/

/-- C2 (counterexample): a match with an in-document date at epoch second
100 and a modification time of 5 gets priority score `100000005`, not the
`100 × 10^6 = 100000000` the claim requires — the modification time is
added unconditionally. -/
theorem C2_priority_counterexample :
    calculate_priority_score (some 100) none 5 = 100000005 ∧
    (100000005 : Int) ≠ 100 * 1000000 := by
  constructor
  · rfl
  · decide

/-- C2 (amended): the priority score is `doc_date·10^6 + mtime` when an
in-document date exists (the filename date then contributes nothing),
else `filename_date·10^3 + mtime`, else `mtime` — the modification-time
epoch seconds are always added. -/
theorem C2_priority_amended (d f mt : Int) :
    calculate_priority_score (some d) (some f) mt = d * 1000000 + mt ∧
    calculate_priority_score (some d) none mt = d * 1000000 + mt ∧
    calculate_priority_score none (some f) mt = f * 1000 + mt ∧
    calculate_priority_score none none mt = mt := by
  refine ⟨rfl, rfl, rfl, ?_⟩
  show 0 + mt = mt
  exact zero_add mt

/-! ## Claim C5: exact-match short circuit -/

/-- The scorer's exact-match branch: a non-empty identifier that is a
member of the page's candidate list always scores `(100, "order_exact")`. -/
theorem calc_score_exact (excel_order : PyStr) (page : PageInfo)
    (use_fuzzy : Bool) (threshold : ℚ) (ratio : PyStr → PyStr → ℚ) (fmt : ℚ → String)
    (hne : excel_order ≠ []) (hmem : excel_order ∈ page.norm_order_candidates) :
    calc_match_score [] [] [] excel_order page use_fuzzy threshold ratio fmt =
      (100, "order_exact") := by
  have hc : page.norm_order_candidates ≠ [] := List.ne_nil_of_mem hmem
  simp [calc_match_score, hne, hc, hmem]

/-- C5 (counterexample): the exact-match reason string produced by
`calc_match_score` is `"order_exact"`, not `"exact"`: at identifier `"A"`
and a page whose candidate list is `["A"]` the result is
`(100, "order_exact")`. -/
theorem C5_exact_reason_counterexample :
    calc_match_score [] [] [] [65] ⟨0, [], [], [], [], [[65]]⟩ false 90
      (fun _ _ => 0) (fun _ => "") = (100, "order_exact") ∧
    ("order_exact" : String) ≠ "exact" := by
  constructor
  · exact calc_score_exact [65] ⟨0, [], [], [], [], [[65]]⟩ false 90
      (fun _ _ => 0) (fun _ => "") (by decide) (by decide)
  · decide

/-- C5 (amended): for every non-empty identifier that is an exact member of
the page's candidate list, and every `use_fuzzy`/`threshold` (and every
similarity function and formatter), the scorer returns score 100 with the
exact-match reason code `"order_exact"`. -/
theorem C5_exact_short_circuit (excel_order : PyStr) (page : PageInfo)
    (use_fuzzy : Bool) (threshold : ℚ) (ratio : PyStr → PyStr → ℚ) (fmt : ℚ → String)
    (hne : excel_order ≠ []) (hmem : excel_order ∈ page.norm_order_candidates) :
    calc_match_score [] [] [] excel_order page use_fuzzy threshold ratio fmt =
      (100, "order_exact") :=
  calc_score_exact excel_order page use_fuzzy threshold ratio fmt hne hmem

/-- C5 witness: the short-circuit theorem applied at identifier `"A"`,
candidate list `["A"]`, `use_fuzzy = true`, threshold 90. -/
theorem C5_exact_short_circuit_witness :
    ([65] : PyStr) ≠ [] ∧ ([65] : PyStr) ∈ [[65]] ∧
    calc_match_score [] [] [] [65] ⟨0, [], [], [], [], [[65]]⟩ true 90
      (fun _ _ => 0) (fun _ => "") = (100, "order_exact") :=
  ⟨by decide, by decide,
    C5_exact_short_circuit [65] ⟨0, [], [], [], [], [[65]]⟩ true 90
      (fun _ _ => 0) (fun _ => "") (by decide) (by decide)⟩

/-! ## Claim C7: page reordering -/

/-- C7: for every document and every list of page indices valid for it,
`reorder_pdf` succeeds and produces exactly the source's pages at those
indices, in the given order (repeats and omissions included); and the
identity permutation reproduces the document unchanged. -/
theorem C7_reorder_pdf_spec {α : Type} (doc : List α) (ordered : List Nat)
    (h : ∀ i ∈ ordered, i < doc.length) :
    (∃ out, reorder_pdf doc ordered = some out ∧
      ∀ k, out.get? k = (ordered.get? k).bind doc.get?) ∧
    reorder_pdf doc (List.range doc.length) = some doc := by
  have main : ∀ (l : List Nat), (∀ i ∈ l, i < doc.length) →
      ∃ out, reorder_pdf doc l = some out ∧
        ∀ k, out.get? k = (l.get? k).bind doc.get? := by
    intro l hl
    induction l with
    | nil => exact ⟨[], rfl, fun k => by cases k <;> rfl⟩
    | cons i rest ih =>
      obtain ⟨out, hout, hget⟩ := ih (fun j hj => hl j (List.mem_cons_of_mem i hj))
      have hi : i < doc.length := hl i (List.mem_cons_self i rest)
      obtain ⟨p, hp⟩ : ∃ p, doc.get? i = some p := ⟨doc.get ⟨i, hi⟩, List.get?_eq_get hi⟩
      refine ⟨p :: out, ?_, ?_⟩
      · show (match doc.get? i, reorder_pdf doc rest with
          | some p, some out => some (p :: out)
          | _, _ => none) = some (p :: out)
        rw [hp, hout]
      · intro k
        cases k with
        | zero => simpa using hp.symm
        | succ k => simpa using hget k
  refine ⟨main ordered h, ?_⟩
  obtain ⟨out, hout, hget⟩ := main (List.range doc.length)
    (fun i hi => List.mem_range.mp hi)
  have : out = doc := by
    apply List.ext_get?
    intro k
    rw [hget k]
    by_cases hk : k < doc.length
    · rw [List.get?_range hk]
      rfl
    · rw [List.get?_eq_none.mpr, List.get?_eq_none.mpr]
      · rfl
      · omega
      · simpa using hk
  rw [hout, this]

/-- C7 witness: reordering the three-page document `[10, 20, 30]` with the
index list `[2, 0, 2]` (a repeat and an omission). -/
theorem C7_reorder_pdf_spec_witness :
    (∀ i ∈ ([2, 0, 2] : List Nat), i < ([10, 20, 30] : List Nat).length) ∧
    ((∃ out, reorder_pdf ([10, 20, 30] : List Nat) [2, 0, 2] = some out ∧
      ∀ k, out.get? k = (([2, 0, 2] : List Nat).get? k).bind ([10, 20, 30] : List Nat).get?) ∧
     reorder_pdf ([10, 20, 30] : List Nat) (List.range 3) = some [10, 20, 30]) :=
  ⟨by decide, C7_reorder_pdf_spec [10, 20, 30] [2, 0, 2] (by decide)⟩

/-! ## Claim C8: folder-search results sorted by mtime descending -/

/-- C8: every list returned by the folder search — the dispatcher, the
multiprocess variant (whatever the completion order of the workers), and
the sequential variant, including runs halted early by the stop flag — is
sorted by file modification time in descending order. -/
theorem C8_folder_results_sorted (use_multiprocess : Bool) (files : List ScanFile)
    (stopListing : Bool) (arrivals : List (Option ScanResult)) (stop : Nat → Bool) :
    (search_order_in_folder use_multiprocess files stopListing arrivals stop).Sorted
      (fun a b => b.2.2 ≤ a.2.2) ∧
    (search_order_in_folder_multiprocess stopListing arrivals stop).Sorted
      (fun a b => b.2.2 ≤ a.2.2) ∧
    (search_order_in_folder_seq stopListing files stop).Sorted
      (fun a b => b.2.2 ≤ a.2.2) := by
  have hmp : ∀ (sl : Bool) (arr : List (Option ScanResult)) (st : Nat → Bool),
      (search_order_in_folder_multiprocess sl arr st).Sorted (fun a b => b.2.2 ≤ a.2.2) := by
    intro sl arr st
    unfold search_order_in_folder_multiprocess
    split_ifs
    · exact List.sorted_nil
    · exact List.sorted_nil
    · exact List.sorted_insertionSort _ _
  have hseq : ∀ (sl : Bool) (fs : List ScanFile) (st : Nat → Bool),
      (search_order_in_folder_seq sl fs st).Sorted (fun a b => b.2.2 ≤ a.2.2) := by
    intro sl fs st
    unfold search_order_in_folder_seq
    split_ifs
    · exact List.sorted_nil
    · exact List.sorted_insertionSort _ _
  refine ⟨?_, hmp stopListing arrivals stop, hseq stopListing files stop⟩
  unfold search_order_in_folder
  split_ifs
  · exact hmp stopListing arrivals stop
  · exact hseq stopListing files stop

/-! ## Claims C10 and C1: shape of `normalize_phone` results -/

/-- `normalize_phone` with its digit-extraction let-binding unfolded. -/
theorem normalize_phone_eq (s : PyStr) :
    normalize_phone s =
      (if listStartsWith [48, 49, 48] (digitsOf s) &&
          ((digitsOf s).length == 10 || (digitsOf s).length == 11) then
        digitsOf s
      else if listStartsWith [49, 48] (digitsOf s) && (digitsOf s).length == 10 then
        48 :: digitsOf s
      else if listStartsWith [49, 48] (digitsOf s) && (digitsOf s).length == 9 then
        48 :: digitsOf s
      else if (digitsOf s).length == 8 then
        [48, 49, 48] ++ digitsOf s
      else if (digitsOf s).length == 7 then
        [48, 49, 48] ++ digitsOf s
      else
        []) := rfl

/-- A digit string starting with `"10"` cannot start with `"010"`. -/
theorem not_starts010_of_starts10 (d : PyStr) (h : listStartsWith [49, 48] d = true) :
    listStartsWith [48, 49, 48] d = false := by
  cases d with
  | nil => simp [listStartsWith] at h
  | cons a t =>
    simp only [listStartsWith, Bool.and_eq_true, beq_iff_eq] at h
    obtain ⟨ha, -⟩ := h
    subst ha
    simp [listStartsWith]

/-- C10: whenever `normalize_phone` returns a non-empty string, that string
consists only of digits, starts with `"010"`, and has length 10 or 11; in
particular a 7-digit extraction yields a 10-digit result and a 9-digit
extraction (necessarily starting `"10"`, else the result would be empty)
also yields a 10-digit result.  The function is total by construction, so
it never raises. -/
theorem C10_phone_result_shape (s : PyStr) (h : normalize_phone s ≠ []) :
    (∀ c ∈ normalize_phone s, isDigitN c = true) ∧
    listStartsWith [48, 49, 48] (normalize_phone s) = true ∧
    ((normalize_phone s).length = 10 ∨ (normalize_phone s).length = 11) ∧
    ((digitsOf s).length = 7 → (normalize_phone s).length = 10) ∧
    ((digitsOf s).length = 9 → (normalize_phone s).length = 10) := by
  have hd : ∀ c ∈ digitsOf s, isDigitN c = true := fun c hc => (List.mem_filter.mp hc).2
  rw [normalize_phone_eq] at h ⊢
  split_ifs at h ⊢ with h1 h2 h3 h4 h5
  · rw [Bool.and_eq_true] at h1
    obtain ⟨hstart, hlen⟩ := h1
    simp only [Bool.or_eq_true, beq_iff_eq] at hlen
    exact ⟨hd, hstart, hlen, fun h7 => by omega, fun h9 => by omega⟩
  · rw [Bool.and_eq_true] at h2
    obtain ⟨hstart, hlen⟩ := h2
    simp only [beq_iff_eq] at hlen
    refine ⟨?_, ?_, ?_, fun h7 => by omega, fun h9 => by omega⟩
    · intro c hc
      rcases List.mem_cons.mp hc with rfl | hc
      · decide
      · exact hd c hc
    · simpa [listStartsWith] using hstart
    · right
      simp [hlen]
  · rw [Bool.and_eq_true] at h3
    obtain ⟨hstart, hlen⟩ := h3
    simp only [beq_iff_eq] at hlen
    refine ⟨?_, ?_, ?_, fun h7 => by omega, fun _ => by simp [hlen]⟩
    · intro c hc
      rcases List.mem_cons.mp hc with rfl | hc
      · decide
      · exact hd c hc
    · simpa [listStartsWith] using hstart
    · left
      simp [hlen]
  · simp only [beq_iff_eq] at h4
    refine ⟨?_, ?_, ?_, fun h7 => by omega, fun h9 => by omega⟩
    · intro c hc
      rcases List.mem_append.mp hc with hc | hc
      · simp only [List.mem_cons, List.not_mem_nil, or_false] at hc
        rcases hc with rfl | rfl | rfl <;> decide
      · exact hd c hc
    · simp [listStartsWith]
    · right
      simp [h4]
  · simp only [beq_iff_eq] at h5
    refine ⟨?_, ?_, ?_, fun _ => by simp [h5], fun h9 => by omega⟩
    · intro c hc
      rcases List.mem_append.mp hc with hc | hc
      · simp only [List.mem_cons, List.not_mem_nil, or_false] at hc
        rcases hc with rfl | rfl | rfl <;> decide
      · exact hd c hc
    · simp [listStartsWith]
    · left
      simp [h5]
  · exact absurd rfl h

/-- C10 witness: the theorem applied to the 7-digit input `"2584757"`,
whose result `"0102584757"` has 10 digits. -/
theorem C10_phone_result_shape_witness :
    normalize_phone [50, 53, 56, 52, 55, 53, 55] ≠ [] ∧
    ((∀ c ∈ normalize_phone [50, 53, 56, 52, 55, 53, 55], isDigitN c = true) ∧
     listStartsWith [48, 49, 48] (normalize_phone [50, 53, 56, 52, 55, 53, 55]) = true ∧
     ((normalize_phone [50, 53, 56, 52, 55, 53, 55]).length = 10 ∨
      (normalize_phone [50, 53, 56, 52, 55, 53, 55]).length = 11) ∧
     ((digitsOf [50, 53, 56, 52, 55, 53, 55]).length = 7 →
      (normalize_phone [50, 53, 56, 52, 55, 53, 55]).length = 10) ∧
     ((digitsOf [50, 53, 56, 52, 55, 53, 55]).length = 9 →
      (normalize_phone [50, 53, 56, 52, 55, 53, 55]).length = 10)) :=
  ⟨by decide, C10_phone_result_shape [50, 53, 56, 52, 55, 53, 55] (by decide)⟩

/-- C1 (counterexample): the 7-digit input `"1234567"` has a 7-digit
extraction, yet `normalize_phone` returns the 10-digit `"0101234567"`,
not an 11-digit string as the claim requires. -/
theorem C1_phone_counterexample :
    (digitsOf [49, 50, 51, 52, 53, 54, 55]).length = 7 ∧
    normalize_phone [49, 50, 51, 52, 53, 54, 55] =
      [48, 49, 48, 49, 50, 51, 52, 53, 54, 55] ∧
    (normalize_phone [49, 50, 51, 52, 53, 54, 55]).length ≠ 11 := by
  refine ⟨by decide, by decide, by decide⟩

/-- C1 (amended): for digit extractions of length 7 or 8 the full prefix
`"010"` is prepended; for length 9 or 10 starting `"10"` a single `"0"` is
prepended; for length 10 or 11 already starting `"010"` the digits are
returned as-is — so the canonical result starts with `"010"` and has 10 or
11 digits (10, not 11, in the 7-digit, 9-digit and prefixed-10-digit
buckets); for any other digit count the result is empty. -/
theorem C1_phone_buckets (s : PyStr) :
    ((digitsOf s).length = 7 → normalize_phone s = [48, 49, 48] ++ digitsOf s) ∧
    ((digitsOf s).length = 8 → normalize_phone s = [48, 49, 48] ++ digitsOf s) ∧
    ((digitsOf s).length = 9 → listStartsWith [49, 48] (digitsOf s) = true →
      normalize_phone s = 48 :: digitsOf s) ∧
    ((digitsOf s).length = 10 → listStartsWith [49, 48] (digitsOf s) = true →
      normalize_phone s = 48 :: digitsOf s) ∧
    ((digitsOf s).length = 10 → listStartsWith [48, 49, 48] (digitsOf s) = true →
      normalize_phone s = digitsOf s) ∧
    ((digitsOf s).length = 11 → listStartsWith [48, 49, 48] (digitsOf s) = true →
      normalize_phone s = digitsOf s) ∧
    ((digitsOf s).length ∉ ([7, 8, 9, 10, 11] : List Nat) → normalize_phone s = []) := by
  refine ⟨?_, ?_, ?_, ?_, ?_, ?_, ?_⟩
  · intro hlen
    rw [normalize_phone_eq]
    simp [hlen]
  · intro hlen
    rw [normalize_phone_eq]
    simp [hlen]
  · intro hlen hstart
    rw [normalize_phone_eq]
    simp [hlen, hstart]
  · intro hlen hstart
    rw [normalize_phone_eq]
    simp [hlen, hstart, not_starts010_of_starts10 _ hstart]
  · intro hlen hstart
    rw [normalize_phone_eq]
    simp [hlen, hstart]
  · intro hlen hstart
    rw [normalize_phone_eq]
    simp [hlen, hstart]
  · intro hlen
    simp only [List.mem_cons, List.not_mem_nil, or_false, not_or] at hlen
    obtain ⟨h7, h8, h9, h10, h11⟩ := hlen
    rw [normalize_phone_eq]
    simp [beq_eq_false_iff_ne.mpr h7, beq_eq_false_iff_ne.mpr h8,
      beq_eq_false_iff_ne.mpr h9, beq_eq_false_iff_ne.mpr h10,
      beq_eq_false_iff_ne.mpr h11]

/-- C1 witness for the amended claim: the 8-digit input `"27357395"`
(hitting the prepend-`"010"` rule) and the out-of-range 3-digit input
`"123"` (hitting the empty-result rule). -/
theorem C1_phone_buckets_witness :
    (digitsOf [50, 55, 51, 53, 55, 51, 57, 53]).length = 8 ∧
    normalize_phone [50, 55, 51, 53, 55, 51, 57, 53] =
      [48, 49, 48] ++ digitsOf [50, 55, 51, 53, 55, 51, 57, 53] ∧
    (digitsOf [49, 50, 51]).length ∉ ([7, 8, 9, 10, 11] : List Nat) ∧
    normalize_phone [49, 50, 51] = [] :=
  ⟨by decide, (C1_phone_buckets [50, 55, 51, 53, 55, 51, 57, 53]).2.1 (by decide),
   by decide, (C1_phone_buckets [49, 50, 51]).2.2.2.2.2.2 (by decide)⟩

/-! ## Claim C9: idempotence of the identifier normalizer -/

/-- `dropWhile` is the identity on a list none of whose elements satisfy
the predicate. -/
theorem dropWhile_eq_self_of_none (p : Nat → Bool) (l : List Nat)
    (h : ∀ n ∈ l, p n = false) : List.dropWhile p l = l := by
  cases l with
  | nil => rfl
  | cons a t => simp [List.dropWhile_cons, h a (List.mem_cons_self a t)]

/-- `pyStrip` is the identity on a string with no whitespace characters. -/
theorem pyStrip_eq_self (l : PyStr) (h : ∀ n ∈ l, isPySpace n = false) :
    pyStrip l = l := by
  unfold pyStrip
  rw [dropWhile_eq_self_of_none _ _ h,
    dropWhile_eq_self_of_none _ _ (fun n hn => h n (List.mem_reverse.mp hn)),
    List.reverse_reverse]

/-- `map` is the identity when the function fixes every element. -/
theorem map_eq_self_of_fixed (f : Nat → Nat) (l : List Nat)
    (h : ∀ n ∈ l, f n = n) : l.map f = l := by
  induction l with
  | nil => rfl
  | cons a t ih =>
    rw [List.map_cons, h a (List.mem_cons_self a t),
      ih (fun n hn => h n (List.mem_cons_of_mem a hn))]

/-- `remove_special_chars` is the identity on a string with no zero-width
and no wide-space characters. -/
theorem remove_special_chars_eq_self (l : PyStr)
    (h : ∀ n ∈ l, isZeroWidth n = false ∧ isWideSpace n = false) :
    remove_special_chars l = l := by
  unfold remove_special_chars
  rw [List.filter_eq_self.mpr (fun a ha => by simp [(h a ha).1])]
  exact map_eq_self_of_fixed _ _ (fun a ha => by simp [(h a ha).2])

/-- Every code point of a normalized order number is an ASCII digit or an
ASCII uppercase letter. -/
theorem mem_normalize_order_number (s : PyStr) :
    ∀ n ∈ normalize_order_number s, isDigitN n = true ∨ isUpperN n = true := by
  intro n hn
  unfold normalize_order_number at hn
  obtain ⟨m, hm, rfl⟩ := List.mem_map.mp hn
  have halnum : isAlnumN m = true := (List.mem_filter.mp hm).2
  simp only [isAlnumN, isDigitN, isLowerN, isUpperN, Bool.or_eq_true,
    Bool.and_eq_true, decide_eq_true_eq] at halnum ⊢
  unfold upperN
  split_ifs with hlow
  · simp only [isLowerN, Bool.and_eq_true, decide_eq_true_eq] at hlow
    omega
  · simp only [isLowerN, Bool.and_eq_true, decide_eq_true_eq, not_and, not_le] at hlow
    omega

/-- Digits and uppercase letters are untouched by every stage of
`normalize_order_number`: not whitespace, not special, alphanumeric, and
fixed by uppercasing. -/
theorem upper_alnum_fixed (n : Nat) (h : isDigitN n = true ∨ isUpperN n = true) :
    isPySpace n = false ∧ isZeroWidth n = false ∧ isWideSpace n = false ∧
    isAlnumN n = true ∧ upperN n = n := by
  simp only [isDigitN, isUpperN, Bool.and_eq_true, decide_eq_true_eq] at h
  refine ⟨?_, ?_, ?_, ?_, ?_⟩
  · simp only [isPySpace, Bool.or_eq_false_iff, Bool.and_eq_false_iff,
      beq_eq_false_iff_ne, ne_eq, decide_eq_false_iff_not, not_le]
    omega
  · simp only [isZeroWidth, Bool.or_eq_false_iff, Bool.and_eq_false_iff,
      beq_eq_false_iff_ne, ne_eq, decide_eq_false_iff_not, not_le]
    omega
  · simp only [isWideSpace, Bool.or_eq_false_iff, beq_eq_false_iff_ne, ne_eq]
    omega
  · simp only [isAlnumN, isDigitN, isLowerN, isUpperN, Bool.or_eq_true,
      Bool.and_eq_true, decide_eq_true_eq]
    omega
  · unfold upperN
    rw [if_neg]
    simp only [isLowerN, Bool.and_eq_true, decide_eq_true_eq, not_and, not_le]
    omega

/-- C9: `normalize_order_number` is idempotent — renormalizing its output
returns the output unchanged. -/
theorem C9_normalize_order_idempotent (s : PyStr) :
    normalize_order_number (normalize_order_number s) = normalize_order_number s := by
  have hfix := fun n hn => upper_alnum_fixed n (mem_normalize_order_number s n hn)
  show ((remove_special_chars (pyStrip (normalize_order_number s))).filter
      isAlnumN).map upperN = normalize_order_number s
  rw [pyStrip_eq_self _ (fun n hn => (hfix n hn).1)]
  rw [remove_special_chars_eq_self _ (fun n hn => ⟨(hfix n hn).2.1, (hfix n hn).2.2.1⟩)]
  rw [List.filter_eq_self.mpr (fun n hn => (hfix n hn).2.2.2.1)]
  exact map_eq_self_of_fixed _ _ (fun n hn => (hfix n hn).2.2.2.2)

/-! ## Claim C6: latest-file selection -/

/-- C6: on a non-empty match list, `_select_latest_file` returns a match of
the list whose priority score is maximal, with `decided_by` equal to the
highest tier the winning match populates; when no match has any date and
every score is the one `_calculate_priority_score` derives, the winner's
modification time dominates all others and `decided_by` is
`"modified_time"`. -/
theorem C6_select_latest (ms : List OrderMatch) (h : ms ≠ []) :
    ∃ best s, select_latest_file ms = some (best, s) ∧ best ∈ ms ∧
      (∀ m ∈ ms, m.priority_score ≤ best.priority_score) ∧
      s = decidedBasis best ∧
      ((∀ m ∈ ms, m.doc_date = none ∧ m.filename_date = none ∧
          m.priority_score = calculate_priority_score none none m.modified_time) →
        (∀ m ∈ ms, m.modified_time ≤ best.modified_time) ∧ s = "modified_time") := by
  match ms with
  | [] => exact absurd rfl h
  | [m] =>
    refine ⟨m, decidedBasis m, rfl, List.mem_singleton_self m, ?_, rfl, ?_⟩
    · intro m' hm'
      rw [List.mem_singleton.mp hm']
    · intro hall
      obtain ⟨hdoc, hfn, -⟩ := hall m (List.mem_singleton_self m)
      refine ⟨fun m' hm' => by rw [List.mem_singleton.mp hm'], ?_⟩
      simp [decidedBasis, hdoc, hfn]
  | m1 :: m2 :: rest =>
    set L := m1 :: m2 :: rest with hL
    have hperm := List.perm_insertionSort
      (fun a b : OrderMatch => b.priority_score ≤ a.priority_score) L
    have hsorted := List.sorted_insertionSort
      (fun a b : OrderMatch => b.priority_score ≤ a.priority_score) L
    match hS : List.insertionSort
        (fun a b : OrderMatch => b.priority_score ≤ a.priority_score) L with
    | [] =>
      rw [hS] at hperm
      exact absurd (hperm.symm.length_eq) (by simp)
    | best :: tail =>
      rw [hS] at hperm hsorted
      have hmem : best ∈ L := hperm.mem_iff.mp (List.mem_cons_self best tail)
      have hmax : ∀ m ∈ L, m.priority_score ≤ best.priority_score := by
        intro m hm
        rcases List.mem_cons.mp (hperm.mem_iff.mpr hm) with rfl | hm'
        · exact le_refl _
        · exact (List.pairwise_cons.mp hsorted).1 m hm'
      refine ⟨best, decidedBasis best, ?_, hmem, hmax, rfl, ?_⟩
      · show (match List.insertionSort
            (fun a b : OrderMatch => b.priority_score ≤ a.priority_score) L with
          | [] => none
          | best :: _ => some (best, decidedBasis best)) = some (best, decidedBasis best)
        rw [hS]
      · intro hall
        obtain ⟨hdoc, hfn, -⟩ := hall best hmem
        constructor
        · intro m hm
          have hs := hmax m hm
          have hmscore := (hall m hm).2.2
          have hbscore := (hall best hmem).2.2
          simp only [calculate_priority_score, zero_add] at hmscore hbscore
          omega
        · simp [decidedBasis, hdoc, hfn]

/-- C6 witness: three matches with no dates and modification times 100,
200 and 300; the resolver must pick one dominating mtime 300 and decide by
`"modified_time"`. -/
theorem C6_select_latest_witness :
    ([⟨"A", "f1", [1], none, none, 100, 100⟩,
      ⟨"A", "f2", [1], none, none, 300, 300⟩,
      ⟨"A", "f3", [1], none, none, 200, 200⟩] : List OrderMatch) ≠ [] ∧
    (∃ best s, select_latest_file
        [⟨"A", "f1", [1], none, none, 100, 100⟩,
         ⟨"A", "f2", [1], none, none, 300, 300⟩,
         ⟨"A", "f3", [1], none, none, 200, 200⟩] = some (best, s) ∧
      best ∈ ([⟨"A", "f1", [1], none, none, 100, 100⟩,
         ⟨"A", "f2", [1], none, none, 300, 300⟩,
         ⟨"A", "f3", [1], none, none, 200, 200⟩] : List OrderMatch) ∧
      (∀ m ∈ ([⟨"A", "f1", [1], none, none, 100, 100⟩,
         ⟨"A", "f2", [1], none, none, 300, 300⟩,
         ⟨"A", "f3", [1], none, none, 200, 200⟩] : List OrderMatch),
        m.priority_score ≤ best.priority_score) ∧
      s = decidedBasis best ∧
      ((∀ m ∈ ([⟨"A", "f1", [1], none, none, 100, 100⟩,
         ⟨"A", "f2", [1], none, none, 300, 300⟩,
         ⟨"A", "f3", [1], none, none, 200, 200⟩] : List OrderMatch),
          m.doc_date = none ∧ m.filename_date = none ∧
          m.priority_score = calculate_priority_score none none m.modified_time) →
        (∀ m ∈ ([⟨"A", "f1", [1], none, none, 100, 100⟩,
           ⟨"A", "f2", [1], none, none, 300, 300⟩,
           ⟨"A", "f3", [1], none, none, 200, 200⟩] : List OrderMatch),
          m.modified_time ≤ best.modified_time) ∧ s = "modified_time")) :=
  ⟨by simp, C6_select_latest _ (by simp)⟩

/-! ## Claims C3 and C4: the greedy assignment engine -/

/-- Step equation: a page whose index is already consumed is skipped. -/
theorem bestPageLoop_skip (eo : PyStr) (uf : Bool) (θ : ℚ)
    (ratio : PyStr → PyStr → ℚ) (fmt : ℚ → String) (used : List Int)
    (p : PageInfo) (rest : List PageInfo) (bp : Int) (bs : ℚ) (br : String)
    (hsk : p.index ∈ used) :
    bestPageLoop eo uf θ ratio fmt used (p :: rest) bp bs br =
      bestPageLoop eo uf θ ratio fmt used rest bp bs br := by
  simp only [bestPageLoop]
  rw [if_pos hsk]

/-- Step equation: a fresh page that improves the best score to 100 ends
the scan at once. -/
theorem bestPageLoop_break (eo : PyStr) (uf : Bool) (θ : ℚ)
    (ratio : PyStr → PyStr → ℚ) (fmt : ℚ → String) (used : List Int)
    (p : PageInfo) (rest : List PageInfo) (bp : Int) (bs : ℚ) (br : String)
    (hsk : p.index ∉ used)
    (hup : bs < (calc_match_score [] [] [] eo p uf θ ratio fmt).1)
    (h100 : (calc_match_score [] [] [] eo p uf θ ratio fmt).1 = 100) :
    bestPageLoop eo uf θ ratio fmt used (p :: rest) bp bs br =
      (p.index, (calc_match_score [] [] [] eo p uf θ ratio fmt).1,
        (calc_match_score [] [] [] eo p uf θ ratio fmt).2) := by
  simp only [bestPageLoop]
  rw [if_neg hsk, if_pos hup, if_pos h100]

/-- Step equation: a fresh page that improves the best score below 100
updates the running best and continues. -/
theorem bestPageLoop_update (eo : PyStr) (uf : Bool) (θ : ℚ)
    (ratio : PyStr → PyStr → ℚ) (fmt : ℚ → String) (used : List Int)
    (p : PageInfo) (rest : List PageInfo) (bp : Int) (bs : ℚ) (br : String)
    (hsk : p.index ∉ used)
    (hup : bs < (calc_match_score [] [] [] eo p uf θ ratio fmt).1)
    (h100 : (calc_match_score [] [] [] eo p uf θ ratio fmt).1 ≠ 100) :
    bestPageLoop eo uf θ ratio fmt used (p :: rest) bp bs br =
      bestPageLoop eo uf θ ratio fmt used rest p.index
        (calc_match_score [] [] [] eo p uf θ ratio fmt).1
        (calc_match_score [] [] [] eo p uf θ ratio fmt).2 := by
  simp only [bestPageLoop]
  rw [if_neg hsk, if_pos hup, if_neg h100]

/-- Step equation: a fresh page that does not improve the best score is
passed over. -/
theorem bestPageLoop_noupdate (eo : PyStr) (uf : Bool) (θ : ℚ)
    (ratio : PyStr → PyStr → ℚ) (fmt : ℚ → String) (used : List Int)
    (p : PageInfo) (rest : List PageInfo) (bp : Int) (bs : ℚ) (br : String)
    (hsk : p.index ∉ used)
    (hup : ¬ bs < (calc_match_score [] [] [] eo p uf θ ratio fmt).1) :
    bestPageLoop eo uf θ ratio fmt used (p :: rest) bp bs br =
      bestPageLoop eo uf θ ratio fmt used rest bp bs br := by
  simp only [bestPageLoop]
  rw [if_neg hsk, if_neg hup]

/-- The page loop either returns its initial triple unchanged, or returns
the index of an unconsumed page of the list together with a strictly
improved score. -/
theorem bestPageLoop_cases (eo : PyStr) (uf : Bool) (θ : ℚ)
    (ratio : PyStr → PyStr → ℚ) (fmt : ℚ → String) (used : List Int) :
    ∀ (ps : List PageInfo) (bp : Int) (bs : ℚ) (br : String),
      bestPageLoop eo uf θ ratio fmt used ps bp bs br = (bp, bs, br) ∨
      ∃ p ∈ ps, p.index ∉ used ∧
        (bestPageLoop eo uf θ ratio fmt used ps bp bs br).1 = p.index ∧
        bs < (bestPageLoop eo uf θ ratio fmt used ps bp bs br).2.1 := by
  intro ps
  induction ps with
  | nil => intro bp bs br; left; rfl
  | cons p rest ih =>
    intro bp bs br
    by_cases hsk : p.index ∈ used
    · rw [bestPageLoop_skip eo uf θ ratio fmt used p rest bp bs br hsk]
      rcases ih bp bs br with hl | ⟨q, hq, hqu, h1, h2⟩
      · left; exact hl
      · right; exact ⟨q, List.mem_cons_of_mem p hq, hqu, h1, h2⟩
    · by_cases hup : bs < (calc_match_score [] [] [] eo p uf θ ratio fmt).1
      · by_cases h100 : (calc_match_score [] [] [] eo p uf θ ratio fmt).1 = 100
        · rw [bestPageLoop_break eo uf θ ratio fmt used p rest bp bs br hsk hup h100]
          right
          exact ⟨p, List.mem_cons_self p rest, hsk, rfl, hup⟩
        · rw [bestPageLoop_update eo uf θ ratio fmt used p rest bp bs br hsk hup h100]
          rcases ih p.index (calc_match_score [] [] [] eo p uf θ ratio fmt).1
              (calc_match_score [] [] [] eo p uf θ ratio fmt).2 with hl | ⟨q, hq, hqu, h1, h2⟩
          · right
            refine ⟨p, List.mem_cons_self p rest, hsk, ?_, ?_⟩
            · rw [hl]
            · rw [hl]; exact hup
          · right
            refine ⟨q, List.mem_cons_of_mem p hq, hqu, h1, lt_trans hup h2⟩
      · rw [bestPageLoop_noupdate eo uf θ ratio fmt used p rest bp bs br hsk hup]
        rcases ih bp bs br with hl | ⟨q, hq, hqu, h1, h2⟩
        · left; exact hl
        · right; exact ⟨q, List.mem_cons_of_mem p hq, hqu, h1, h2⟩

/-- When the page loop starts from the `(-1, 0, "no_match")` sentinel and
ends with a positive score, its best page is the index of an unconsumed
page of the list. -/
theorem bestPageLoop_pos (eo : PyStr) (uf : Bool) (θ : ℚ)
    (ratio : PyStr → PyStr → ℚ) (fmt : ℚ → String) (used : List Int)
    (ps : List PageInfo)
    (hpos : 0 < (bestPageLoop eo uf θ ratio fmt used ps (-1) 0 "no_match").2.1) :
    ∃ p ∈ ps, p.index ∉ used ∧
      (bestPageLoop eo uf θ ratio fmt used ps (-1) 0 "no_match").1 = p.index := by
  rcases bestPageLoop_cases eo uf θ ratio fmt used ps (-1) 0 "no_match" with hl | ⟨p, hp, hpu, h1, -⟩
  · rw [hl] at hpos
    exact absurd hpos (by norm_num)
  · exact ⟨p, hp, hpu, h1⟩

/-- Step equation: a record with an empty normalized identifier consults no
page and is recorded as `empty_order_number`. -/
theorem matchLoop_cons_empty (pages : List PageInfo) (uf : Bool) (θ : ℚ)
    (ratio : PyStr → PyStr → ℚ) (fmt : ℚ → String) (r : PyStr) (rest : List PyStr)
    (i : Nat) (a : List (Nat × Int)) (used : List Int) (det : List (Nat × MatchDetail))
    (h : normalize_order_number r = []) :
    matchLoop pages uf θ ratio fmt (r :: rest) i a used det =
      matchLoop pages uf θ ratio fmt rest (i + 1) a used
        (det ++ [(i, ⟨-1, 0, "empty_order_number"⟩)]) := by
  simp only [matchLoop]
  rw [if_pos h]

/-- Step equation: a record whose page scan ends with a positive score
consumes its best page. -/
theorem matchLoop_cons_pos (pages : List PageInfo) (uf : Bool) (θ : ℚ)
    (ratio : PyStr → PyStr → ℚ) (fmt : ℚ → String) (r : PyStr) (rest : List PyStr)
    (i : Nat) (a : List (Nat × Int)) (used : List Int) (det : List (Nat × MatchDetail))
    (h : ¬ normalize_order_number r = [])
    (hpos : 0 < (bestPageLoop (normalize_order_number r) uf θ ratio fmt used pages
      (-1) 0 "no_match").2.1) :
    matchLoop pages uf θ ratio fmt (r :: rest) i a used det =
      matchLoop pages uf θ ratio fmt rest (i + 1)
        (a ++ [(i, (bestPageLoop (normalize_order_number r) uf θ ratio fmt used pages
          (-1) 0 "no_match").1)])
        (used ++ [(bestPageLoop (normalize_order_number r) uf θ ratio fmt used pages
          (-1) 0 "no_match").1])
        (det ++ [(i, ⟨(bestPageLoop (normalize_order_number r) uf θ ratio fmt used pages
            (-1) 0 "no_match").1,
          (bestPageLoop (normalize_order_number r) uf θ ratio fmt used pages
            (-1) 0 "no_match").2.1,
          (bestPageLoop (normalize_order_number r) uf θ ratio fmt used pages
            (-1) 0 "no_match").2.2⟩)]) := by
  simp only [matchLoop]
  rw [if_neg h, if_pos hpos]

/-- Step equation: a record whose page scan ends with score zero is
recorded as `no_match` and consumes nothing. -/
theorem matchLoop_cons_nonpos (pages : List PageInfo) (uf : Bool) (θ : ℚ)
    (ratio : PyStr → PyStr → ℚ) (fmt : ℚ → String) (r : PyStr) (rest : List PyStr)
    (i : Nat) (a : List (Nat × Int)) (used : List Int) (det : List (Nat × MatchDetail))
    (h : ¬ normalize_order_number r = [])
    (hpos : ¬ 0 < (bestPageLoop (normalize_order_number r) uf θ ratio fmt used pages
      (-1) 0 "no_match").2.1) :
    matchLoop pages uf θ ratio fmt (r :: rest) i a used det =
      matchLoop pages uf θ ratio fmt rest (i + 1) a used
        (det ++ [(i, ⟨-1, 0, "no_match"⟩)]) := by
  simp only [matchLoop]
  rw [if_neg h, if_neg hpos]

/-- Appending a fresh element keeps a list duplicate-free. -/
theorem nodup_append_singleton {α : Type} (l : List α) (x : α)
    (h : l.Nodup) (hx : x ∉ l) : (l ++ [x]).Nodup := by
  rw [List.nodup_append]
  exact ⟨h, List.nodup_singleton x, fun a ha hax => hx (List.mem_singleton.mp hax ▸ ha)⟩

/-- Invariants of the record loop: the consumed-page list is exactly the
list of assignment values; the assignment values are duplicate-free; and
every assignment key either was there initially or is the absolute index
of a remaining record with a non-empty normalized identifier. -/
theorem matchLoop_inv (pages : List PageInfo) (uf : Bool) (θ : ℚ)
    (ratio : PyStr → PyStr → ℚ) (fmt : ℚ → String) :
    ∀ (rs : List PyStr) (i : Nat) (a : List (Nat × Int)) (used : List Int)
      (det : List (Nat × MatchDetail)),
      used = a.map Prod.snd →
      (a.map Prod.snd).Nodup →
      ((matchLoop pages uf θ ratio fmt rs i a used det).2.1 =
        (matchLoop pages uf θ ratio fmt rs i a used det).1.map Prod.snd) ∧
      ((matchLoop pages uf θ ratio fmt rs i a used det).1.map Prod.snd).Nodup ∧
      (∀ pr ∈ (matchLoop pages uf θ ratio fmt rs i a used det).1,
        pr ∈ a ∨ ∃ k r, pr.1 = i + k ∧ rs.get? k = some r ∧
          normalize_order_number r ≠ []) := by
  intro rs
  induction rs with
  | nil =>
    intro i a used det hu hnd
    exact ⟨hu, hnd, fun pr hpr => Or.inl hpr⟩
  | cons r rest ih =>
    intro i a used det hu hnd
    by_cases heo : normalize_order_number r = []
    · rw [matchLoop_cons_empty pages uf θ ratio fmt r rest i a used det heo]
      obtain ⟨h1, h2, h3⟩ := ih (i + 1) a used _ hu hnd
      refine ⟨h1, h2, fun pr hpr => ?_⟩
      rcases h3 pr hpr with hl | ⟨k, r', hk, hget, hne⟩
      · exact Or.inl hl
      · exact Or.inr ⟨k + 1, r', by omega, by simpa using hget, hne⟩
    · by_cases hpos : 0 < (bestPageLoop (normalize_order_number r) uf θ ratio fmt
          used pages (-1) 0 "no_match").2.1
      · rw [matchLoop_cons_pos pages uf θ ratio fmt r rest i a used det heo hpos]
        obtain ⟨p, hp, hpu, hbp⟩ := bestPageLoop_pos (normalize_order_number r)
          uf θ ratio fmt used pages hpos
        have hbu : (bestPageLoop (normalize_order_number r) uf θ ratio fmt used pages
            (-1) 0 "no_match").1 ∉ a.map Prod.snd := by
          rw [hbp, ← hu]; exact hpu
        have hu' : used ++ [(bestPageLoop (normalize_order_number r) uf θ ratio fmt
            used pages (-1) 0 "no_match").1] =
            (a ++ [(i, (bestPageLoop (normalize_order_number r) uf θ ratio fmt used pages
              (-1) 0 "no_match").1)]).map Prod.snd := by
          rw [List.map_append, hu]; rfl
        have hnd' : ((a ++ [(i, (bestPageLoop (normalize_order_number r) uf θ ratio fmt
            used pages (-1) 0 "no_match").1)]).map Prod.snd).Nodup := by
          rw [List.map_append]
          exact nodup_append_singleton (a.map Prod.snd) _ hnd hbu
        obtain ⟨h1, h2, h3⟩ := ih (i + 1) _ _ _ hu' hnd'
        refine ⟨h1, h2, fun pr hpr => ?_⟩
        rcases h3 pr hpr with hl | ⟨k, r', hk, hget, hne⟩
        · rcases List.mem_append.mp hl with ha | hb
          · exact Or.inl ha
          · refine Or.inr ⟨0, r, ?_, rfl, heo⟩
            rw [List.mem_singleton.mp hb]
            omega
        · exact Or.inr ⟨k + 1, r', by omega, by simpa using hget, hne⟩
      · rw [matchLoop_cons_nonpos pages uf θ ratio fmt r rest i a used det heo hpos]
        obtain ⟨h1, h2, h3⟩ := ih (i + 1) a used _ hu hnd
        refine ⟨h1, h2, fun pr hpr => ?_⟩
        rcases h3 pr hpr with hl | ⟨k, r', hk, hget, hne⟩
        · exact Or.inl hl
        · exact Or.inr ⟨k + 1, r', by omega, by simpa using hget, hne⟩

/-- C3: after `match_rows_to_pages`, no page index appears as an assignment
value more than once; every assignment key is the index of a record whose
normalized identifier is non-empty; and the leftover pages are exactly the
page indices that appear as no assignment value, sorted ascending. -/
theorem C3_assignment_invariants (records : List PyStr) (pages : List PageInfo)
    (uf : Bool) (θ : ℚ) (ratio : PyStr → PyStr → ℚ) (fmt : ℚ → String) :
    ((match_rows_to_pages records pages uf θ ratio fmt).1.map Prod.snd).Nodup ∧
    (∀ pr ∈ (match_rows_to_pages records pages uf θ ratio fmt).1,
      ∃ r, records.get? pr.1 = some r ∧ normalize_order_number r ≠ []) ∧
    (match_rows_to_pages records pages uf θ ratio fmt).2.1 =
      List.insertionSort (fun x y => x ≤ y)
        (((pages.map (fun p => p.index)).dedup).filter
          (fun i => i ∉ (match_rows_to_pages records pages uf θ ratio fmt).1.map Prod.snd)) ∧
    ((match_rows_to_pages records pages uf θ ratio fmt).2.1).Sorted (fun x y => x ≤ y) := by
  obtain ⟨h1, h2, h3⟩ := matchLoop_inv pages uf θ ratio fmt records 0 [] [] [] rfl List.nodup_nil
  have e1 : (match_rows_to_pages records pages uf θ ratio fmt).1 =
      (matchLoop pages uf θ ratio fmt records 0 [] [] []).1 := rfl
  have e2 : (match_rows_to_pages records pages uf θ ratio fmt).2.1 =
      List.insertionSort (fun x y => x ≤ y)
        (((pages.map (fun p => p.index)).dedup).filter
          (fun i => i ∉ (matchLoop pages uf θ ratio fmt records 0 [] [] []).2.1)) := rfl
  refine ⟨?_, ?_, ?_, ?_⟩
  · rw [e1]; exact h2
  · intro pr hpr
    rw [e1] at hpr
    rcases h3 pr hpr with hin | ⟨k, r', hk, hget, hne⟩
    · exact absurd hin (List.not_mem_nil pr)
    · refine ⟨r', ?_, hne⟩
      rw [hk, Nat.zero_add]
      exact hget
  · simp only [e2, e1, h1]
  · rw [e2]
    exact List.sorted_insertionSort _ _

/-- With fuzzy matching off, a page whose candidates do not contain the
identifier scores zero. -/
theorem calc_score_no_fuzzy_zero (eo : PyStr) (p : PageInfo) (θ : ℚ)
    (ratio : PyStr → PyStr → ℚ) (fmt : ℚ → String)
    (hnm : eo ∉ p.norm_order_candidates) :
    (calc_match_score [] [] [] eo p false θ ratio fmt).1 = 0 := by
  unfold calc_match_score
  split_ifs <;> first | rfl | simp_all

/-- A list whose `countP` is 1 has a unique element satisfying the
predicate. -/
theorem countP_eq_one_unique {α : Type} (p : α → Bool) :
    ∀ (l : List α), l.countP p = 1 → ∀ x ∈ l, p x = true → ∀ y ∈ l, p y = true → y = x := by
  intro l
  induction l with
  | nil =>
    intro _ x hx
    exact absurd hx (List.not_mem_nil x)
  | cons a t ih =>
    intro h x hx hpx y hy hpy
    by_cases hpa : p a = true
    · have ht : t.countP p = 0 := by
        rw [List.countP_cons, if_pos hpa] at h
        omega
      have hnone : ∀ z ∈ t, ¬ p z = true := List.countP_eq_zero.mp ht
      have hxa : x = a := by
        rcases List.mem_cons.mp hx with rfl | hx'
        · rfl
        · exact absurd hpx (hnone x hx')
      have hya : y = a := by
        rcases List.mem_cons.mp hy with rfl | hy'
        · rfl
        · exact absurd hpy (hnone y hy')
      rw [hxa, hya]
    · rw [List.countP_cons, if_neg hpa] at h
      rcases List.mem_cons.mp hx with rfl | hx'
      · exact absurd hpx hpa
      rcases List.mem_cons.mp hy with rfl | hy'
      · exact absurd hpy hpa
      exact ih (by omega) x hx' hpx y hy' hpy

/-- With fuzzy matching off and exactly one page whose candidates contain
the (non-empty) identifier, the page scan returns that page's index with
score 100 and reason `order_exact`, provided no containing page is
consumed. -/
theorem bestPageLoop_unique_exact (eo : PyStr) (θ : ℚ)
    (ratio : PyStr → PyStr → ℚ) (fmt : ℚ → String) (hne : eo ≠ []) :
    ∀ (ps : List PageInfo) (used : List Int) (pstar : PageInfo),
      ps.countP (fun p => eo ∈ p.norm_order_candidates) = 1 →
      pstar ∈ ps → eo ∈ pstar.norm_order_candidates →
      (∀ p ∈ ps, eo ∈ p.norm_order_candidates → p.index ∉ used) →
      bestPageLoop eo false θ ratio fmt used ps (-1) 0 "no_match" =
        (pstar.index, 100, "order_exact") := by
  intro ps
  induction ps with
  | nil =>
    intro used pstar _ hmem
    exact absurd hmem (List.not_mem_nil pstar)
  | cons q rest ih =>
    intro used pstar hcount hmem hc hused
    by_cases hq : eo ∈ q.norm_order_candidates
    · have hrest : rest.countP (fun p => eo ∈ p.norm_order_candidates) = 0 := by
        rw [List.countP_cons] at hcount
        simp [hq] at hcount
        simpa using hcount
      have hnone : ∀ z ∈ rest, eo ∉ z.norm_order_candidates := by
        intro z hz hcz
        exact (List.countP_eq_zero.mp hrest z hz) (by simpa using hcz)
      have hpq : pstar = q := by
        rcases List.mem_cons.mp hmem with rfl | hin
        · rfl
        · exact absurd hc (hnone pstar hin)
      have hsk : q.index ∉ used := hused q (List.mem_cons_self q rest) hq
      have hcalc := calc_score_exact eo q false θ ratio fmt hne hq
      rw [bestPageLoop_break eo false θ ratio fmt used q rest (-1) 0 "no_match" hsk
        (by rw [hcalc]; norm_num) (by rw [hcalc])]
      rw [hcalc, hpq]
    · have hrest : rest.countP (fun p => eo ∈ p.norm_order_candidates) = 1 := by
        rw [List.countP_cons] at hcount
        simp [hq] at hcount
        omega
      have hmem' : pstar ∈ rest := by
        rcases List.mem_cons.mp hmem with rfl | hin
        · exact absurd hc hq
        · exact hin
      have hused' : ∀ p ∈ rest, eo ∈ p.norm_order_candidates → p.index ∉ used :=
        fun p hp hpc => hused p (List.mem_cons_of_mem q hp) hpc
      by_cases hsk : q.index ∈ used
      · rw [bestPageLoop_skip eo false θ ratio fmt used q rest (-1) 0 "no_match" hsk]
        exact ih used pstar hrest hmem' hc hused'
      · have hz := calc_score_no_fuzzy_zero eo q θ ratio fmt hq
        rw [bestPageLoop_noupdate eo false θ ratio fmt used q rest (-1) 0 "no_match" hsk
          (by rw [hz]; norm_num)]
        exact ih used pstar hrest hmem' hc hused'

/-- With fuzzy matching off, when every page containing the identifier is
already consumed the page scan finds nothing. -/
theorem bestPageLoop_all_used (eo : PyStr) (θ : ℚ)
    (ratio : PyStr → PyStr → ℚ) (fmt : ℚ → String) :
    ∀ (ps : List PageInfo) (used : List Int),
      (∀ p ∈ ps, eo ∈ p.norm_order_candidates → p.index ∈ used) →
      bestPageLoop eo false θ ratio fmt used ps (-1) 0 "no_match" =
        (-1, 0, "no_match") := by
  intro ps
  induction ps with
  | nil => intro used _; rfl
  | cons q rest ih =>
    intro used hused
    have hused' : ∀ p ∈ rest, eo ∈ p.norm_order_candidates → p.index ∈ used :=
      fun p hp hpc => hused p (List.mem_cons_of_mem q hp) hpc
    by_cases hsk : q.index ∈ used
    · rw [bestPageLoop_skip eo false θ ratio fmt used q rest (-1) 0 "no_match" hsk]
      exact ih used hused'
    · have hq : eo ∉ q.norm_order_candidates :=
        fun hc => hsk (hused q (List.mem_cons_self q rest) hc)
      have hz := calc_score_no_fuzzy_zero eo q θ ratio fmt hq
      rw [bestPageLoop_noupdate eo false θ ratio fmt used q rest (-1) 0 "no_match" hsk
        (by rw [hz]; norm_num)]
      exact ih used hused'

/-- C4: on a record list of two records with identical non-empty normalized
identifiers and a page list in which exactly one page's candidate list
contains that identifier, `match_rows_to_pages` (with fuzzy matching off,
as in its default call) assigns that page to record 0, and record 1's
detail is page `-1`, score `0`, reason `"no_match"`. -/
theorem C4_duplicate_identifier (r1 r2 : PyStr) (pages : List PageInfo)
    (θ : ℚ) (ratio : PyStr → PyStr → ℚ) (fmt : ℚ → String) (pstar : PageInfo)
    (hsame : normalize_order_number r2 = normalize_order_number r1)
    (hne : normalize_order_number r1 ≠ [])
    (hcount : pages.countP
      (fun p => normalize_order_number r1 ∈ p.norm_order_candidates) = 1)
    (hmem : pstar ∈ pages)
    (hc : normalize_order_number r1 ∈ pstar.norm_order_candidates) :
    (match_rows_to_pages [r1, r2] pages false θ ratio fmt).1 = [(0, pstar.index)] ∧
    (match_rows_to_pages [r1, r2] pages false θ ratio fmt).2.2 =
      [(0, ⟨pstar.index, 100, "order_exact"⟩), (1, ⟨-1, 0, "no_match"⟩)] := by
  have hb1 : bestPageLoop (normalize_order_number r1) false θ ratio fmt [] pages
      (-1) 0 "no_match" = (pstar.index, 100, "order_exact") :=
    bestPageLoop_unique_exact (normalize_order_number r1) θ ratio fmt hne pages [] pstar
      hcount hmem hc (fun p _ _ => List.not_mem_nil p.index)
  have hne2 : ¬ normalize_order_number r2 = [] := by rw [hsame]; exact hne
  have hused2 : ∀ p ∈ pages,
      normalize_order_number r2 ∈ p.norm_order_candidates → p.index ∈ [pstar.index] := by
    intro p hp hpc
    rw [hsame] at hpc
    have := countP_eq_one_unique
      (fun p => normalize_order_number r1 ∈ p.norm_order_candidates) pages hcount
      pstar hmem (by simpa using hc) p hp (by simpa using hpc)
    rw [this]
    exact List.mem_singleton_self pstar.index
  have hb2 : bestPageLoop (normalize_order_number r2) false θ ratio fmt [pstar.index]
      pages (-1) 0 "no_match" = (-1, 0, "no_match") :=
    bestPageLoop_all_used (normalize_order_number r2) θ ratio fmt pages [pstar.index] hused2
  have hfull : matchLoop pages false θ ratio fmt [r1, r2] 0 [] [] [] =
      ([(0, pstar.index)], [pstar.index],
        [(0, ⟨pstar.index, 100, "order_exact"⟩), (1, ⟨-1, 0, "no_match"⟩)]) := by
    rw [matchLoop_cons_pos pages false θ ratio fmt r1 [r2] 0 [] [] [] hne
      (by rw [hb1]; norm_num)]
    simp only [hb1, List.nil_append]
    rw [matchLoop_cons_nonpos pages false θ ratio fmt r2 [] 1
      [(0, pstar.index)] [pstar.index] [(0, ⟨pstar.index, 100, "order_exact"⟩)] hne2
      (by rw [hb2]; norm_num)]
    simp [matchLoop]
  have e1 : (match_rows_to_pages [r1, r2] pages false θ ratio fmt).1 =
      (matchLoop pages false θ ratio fmt [r1, r2] 0 [] [] []).1 := rfl
  have e3 : (match_rows_to_pages [r1, r2] pages false θ ratio fmt).2.2 =
      (matchLoop pages false θ ratio fmt [r1, r2] 0 [] [] []).2.2 := rfl
  constructor
  · rw [e1, hfull]
  · rw [e3, hfull]

/-- C4 witness: records `"A"`, `"A"`, a two-page document whose second page
alone lists `"A"`; page 1 goes to record 0 and record 1 is unmatched. -/
theorem C4_duplicate_identifier_witness :
    normalize_order_number [65] = normalize_order_number [65] ∧
    normalize_order_number [65] ≠ [] ∧
    ([⟨0, [], [], [], [], [[66]]⟩, ⟨1, [], [], [], [], [[65]]⟩] : List PageInfo).countP
      (fun p => normalize_order_number [65] ∈ p.norm_order_candidates) = 1 ∧
    (match_rows_to_pages [[65], [65]]
      [⟨0, [], [], [], [], [[66]]⟩, ⟨1, [], [], [], [], [[65]]⟩] false 90
      (fun _ _ => 0) (fun _ => "")).1 = [(0, (1 : Int))] ∧
    (match_rows_to_pages [[65], [65]]
      [⟨0, [], [], [], [], [[66]]⟩, ⟨1, [], [], [], [], [[65]]⟩] false 90
      (fun _ _ => 0) (fun _ => "")).2.2 =
      [(0, ⟨1, 100, "order_exact"⟩), (1, ⟨-1, 0, "no_match"⟩)] := by
  have h := C4_duplicate_identifier [65] [65]
    [⟨0, [], [], [], [], [[66]]⟩, ⟨1, [], [], [], [], [[65]]⟩] 90
    (fun _ _ => 0) (fun _ => "") ⟨1, [], [], [], [], [[65]]⟩
    rfl (by decide) (by decide) (by decide) (by decide)
  exact ⟨rfl, by decide, by decide, h.1, h.2⟩
